import Mathlib

set_option autoImplicit false

/-!
Shallow embedding of the Libra video organizer core
(`src/Libra/core/organizer.py`, `src/Libra/core/duplicate_finder.py`,
`src/Libra/video_tools/core/classifier.py`, `src/Libra/gui/main_window.py`).

Strings are modelled as `List Char`; Python `float` frame rates as `Rat`;
byte contents as `List Nat`.  Filesystem observations (`is_file`, `stat`,
`open`/`read`, `Path.exists`, `Path.resolve`) are parameters of the
functions that perform them, and the SHA-256 hexdigest is an abstract
function parameter (its two used properties — it is a function of the
hashed bytes and its hexdigest is a nonempty string without an underscore —
appear as explicit hypotheses where needed).
-/

/-! ### Character classes (the regexes of `organizer.py` / `main_window.py`) -/

/-- The character class of `re.sub(r"[\/\\\:\*\?\"\<\>\|]", "_", name)`. -/
def isForbidden (c : Char) : Bool :=
  c = '/' || c = '\\' || c = ':' || c = '*' || c = '?' || c = '"' ||
  c = '<' || c = '>' || c = '|'

/-- Python `\s` (the ASCII whitespace characters). -/
def pyIsSpace (c : Char) : Bool :=
  c = ' ' || c = '\t' || c = '\n' || c = '\r' || c = '\x0b' || c = '\x0c'

/-- The strip set of `name.strip(" _")`. -/
def isTrimChar (c : Char) : Bool := c = ' ' || c = '_'

/-- The strip set of `.strip("._-")` in `MainWindow._sanitize_segment`. -/
def isDotUndDash (c : Char) : Bool := c = '.' || c = '_' || c = '-'

/-- ASCII letters and digits (`c.isalnum()` / the `A-Za-z0-9` ranges). -/
def isAsciiAlnum (c : Char) : Bool :=
  (48 ≤ c.toNat && c.toNat ≤ 57) || (65 ≤ c.toNat && c.toNat ≤ 90) ||
  (97 ≤ c.toNat && c.toNat ≤ 122)

/-- The kept class `[A-Za-z0-9._-]` of `MainWindow._sanitize_segment`. -/
def isSegKeep (c : Char) : Bool := isAsciiAlnum c || c = '.' || c = '_' || c = '-'

/-! ### Decimal formatting (Python `f"{n}"` and `f"{n:03d}"`) -/

def digitChar (d : Nat) : Char := Char.ofNat (48 + d)

def charVal (c : Char) : Nat := c.toNat - 48

/-- Fuel-driven most-significant-first decimal digits. -/
def decCharsGo : Nat → Nat → List Char
  | 0, _ => []
  | fuel + 1, m =>
    if m < 10 then [digitChar m]
    else decCharsGo fuel (m / 10) ++ [digitChar (m % 10)]

/-- Decimal representation of a natural number (Python `f"{n}"`). -/
def decChars (n : Nat) : List Char := decCharsGo (n + 1) n

/-- Zero-pad to width 3 (Python `f"{c:03d}"` is `pad3` of the digits). -/
def pad3 (s : List Char) : List Char := List.replicate (3 - s.length) '0' ++ s

def counter_str (c : Nat) : List Char := pad3 (decChars c)

/-! ### Regex substitution primitives -/

/-- `re.sub(p+, rep, s)`: collapse every maximal run of `p`-characters to a
single `rep` (used for `\s+` → `" "` or `"_"`, and `_+` → `"_"`). -/
def squeeze (p : Char → Bool) (rep : Char) : List Char → List Char
  | [] => []
  | [c] => [if p c then rep else c]
  | c1 :: c2 :: rest =>
    if p c1 && p c2 then squeeze p rep (c2 :: rest)
    else (if p c1 then rep else c1) :: squeeze p rep (c2 :: rest)

/-- Python `str.strip`: drop leading and trailing characters satisfying `p`. -/
def stripBoth (p : Char → Bool) (l : List Char) : List Char :=
  ((l.dropWhile p).reverse.dropWhile p).reverse

/-- Does the list start with zero or more underscores followed by a dot? -/
def dotAfterUnds (l : List Char) : Bool :=
  match l.dropWhile (fun c => c = '_') with
  | '.' :: _ => true
  | _ => false

/-- `re.sub(r"_+\.", ".", s)`: delete every underscore whose following
non-underscore character is a dot. -/
def subUndDot : List Char → List Char
  | [] => []
  | c :: rest =>
    if c = '_' && dotAfterUnds rest then subUndDot rest
    else c :: subUndDot rest

/-- Python `name.rsplit(".", 1)` when a dot is present: the part before the
last dot and the part after it. -/
def rsplitDot (l : List Char) : Option (List Char × List Char) :=
  let rev := l.reverse
  match rev.dropWhile (fun c => c ≠ '.') with
  | [] => none
  | _ :: baseRev => some (baseRev.reverse, (rev.takeWhile (fun c => c ≠ '.')).reverse)

/-- Python `" ".join(parts)`. -/
def joinParts : List (List Char) → List Char
  | [] => []
  | [p] => p
  | p :: ps => p ++ ' ' :: joinParts ps

/-! ### `Organizer._sanitize_filename` (organizer.py lines 112-131) -/

/-- The replace/collapse/collapse/trim pipeline of `_sanitize_filename`
(everything before the length check). -/
def sanitizeCore (name : List Char) : List Char :=
  stripBoth isTrimChar
    (squeeze (fun c => c = '_') '_'
      (squeeze pyIsSpace ' '
        (name.map (fun c => if isForbidden c then '_' else c))))

/-- `Organizer._sanitize_filename(name, max_len)`. -/
def _sanitize_filename (name : List Char) (max_len : Nat) : List Char :=
  let n := sanitizeCore name
  if max_len < n.length then
    match rsplitDot n with
    | some be =>
      if be.2.length < 10 then be.1.take (max_len - be.2.length - 1) ++ '.' :: be.2
      else n.take max_len
    | none => n.take max_len
  else n

/-! ### `MainWindow._sanitize_segment` (main_window.py lines 883-889) -/

def _sanitize_segment (text : List Char) : List Char :=
  let c1 := squeeze pyIsSpace '_' (stripBoth pyIsSpace text)
  let c2 := c1.map (fun c => if isSegKeep c then c else '_')
  let c3 := stripBoth isDotUndDash (squeeze (fun c => c = '_') '_' c2)
  let c4 := subUndDot c3
  if c4 = [] then "untitled".data else c4

/-! ### Metadata model and the two classifiers -/

/-- `VideoMetadata` (video_metadata.py).  Note: `MetadataExtractor.extract`
swaps width/height when `rotation ∈ {90, 270}` *before* constructing this
record, so the stored dimensions are already rotation-corrected. -/
structure VideoMetadata where
  width : Nat
  height : Nat
  rotation : Nat
  fps : Rat
  iphone_model : Option (List Char)
  has_gps : Bool
  is_edited : Bool
  has_camera_lens : Bool
  deriving DecidableEq

/-- `VideoClassifier.classify` (organizer.py lines 18-35). It reads
`metadata.width`/`metadata.height` directly and never consults
`metadata.rotation`. -/
def VideoClassifier.classify (metadata : VideoMetadata) : List Char × List Char × Nat :=
  let w := metadata.width
  let h := metadata.height
  let res : List Char :=
    if 3840 ≤ w ∨ 3840 ≤ h ∨ 2160 ≤ w ∨ 2160 ≤ h then "4K".data
    else if w = 1920 ∨ h = 1920 ∨ w = 1080 ∨ h = 1080 then "1080p".data
    else if w = 1280 ∨ h = 1280 ∨ w = 720 ∨ h = 720 then "720p".data
    else if 1080 < w ∨ 1080 < h then "HD".data
    else "SD".data
  let orient : List Char := if w < h then "V".data else "W".data
  let fps_bucket : Nat := if 45 < metadata.fps then 60 else 30
  (res, orient, fps_bucket)

/-- `classify_resolution` (classifier.py lines 23-59). -/
def classify_resolution (width height : Nat) : List Char :=
  if 3840 ≤ width ∨ 3840 ≤ height ∨ 2160 ≤ width ∨ 2160 ≤ height then "4K".data
  else if width = 1920 ∨ height = 1920 ∨ width = 1080 ∨ height = 1080 then "1080p".data
  else if width = 1280 ∨ height = 1280 ∨ width = 720 ∨ height = 720 then "720p".data
  else if 1080 < width ∨ 1080 < height then "HD".data
  else "SD".data

/-- `classify_framerate` (classifier.py lines 67-92). -/
def classify_framerate (fps : Rat) : Nat := if 45 < fps then 60 else 30

/-- `classify_orientation` (classifier.py lines 100-113). -/
def classify_orientation (width height : Nat) : List Char :=
  if width < height then "V".data else "W".data

/-- `apply_rotation_correction` (classifier.py lines 121-135). -/
def apply_rotation_correction (width height rotation : Nat) : Nat × Nat :=
  if rotation = 90 ∨ rotation = 270 then (height, width) else (width, height)

/-- The classification part of the dict returned by
`classify_video_properties` (the `actual_fps` echo field — `round(fps, 2)`
of the input — is omitted; no claim concerns it). -/
structure VideoProps where
  resolution : List Char
  orientation : List Char
  framerate_category : Nat
  width : Nat
  height : Nat
  deriving DecidableEq

/-- `classify_video_properties` (classifier.py lines 309-333). -/
def classify_video_properties (width height : Nat) (fps : Rat) (rotation : Nat) : VideoProps :=
  let wh := apply_rotation_correction width height rotation
  { resolution := classify_resolution wh.1 wh.2
    orientation := classify_orientation wh.1 wh.2
    framerate_category := classify_framerate fps
    width := wh.1
    height := wh.2 }

/-- The successful payload of `_get_video_metadata` (classifier.py). -/
structure ProbeMeta where
  width : Nat
  height : Nat
  fps : Rat
  rotation : Nat
  make : Option (List Char)
  model : Option (List Char)
  has_camera : Bool
  has_gps : Bool
  deriving DecidableEq

/-- The dict returned by `classify_video` (again without the `actual_fps`
echo and the `error`/`filepath` strings). -/
structure ClassifyResult where
  resolution : List Char
  orientation : List Char
  framerate_category : Nat
  width : Nat
  height : Nat
  make : Option (List Char)
  model : Option (List Char)
  has_camera : Bool
  has_gps : Bool
  success : Bool
  deriving DecidableEq

/-- `classify_video` (classifier.py lines 248-301); `none` stands for a
failed probe (`metadata["success"]` false / no video stream). -/
def classify_video (probe : Option ProbeMeta) : ClassifyResult :=
  match probe with
  | none =>
    { resolution := "SD".data, orientation := "W".data, framerate_category := 30
      width := 0, height := 0, make := none, model := none
      has_camera := false, has_gps := false, success := false }
  | some md =>
    let wh := apply_rotation_correction md.width md.height md.rotation
    { resolution := classify_resolution wh.1 wh.2
      orientation := classify_orientation wh.1 wh.2
      framerate_category := classify_framerate md.fps
      width := wh.1, height := wh.2, make := md.make, model := md.model
      has_camera := md.has_camera, has_gps := md.has_gps, success := true }

/-! ### `DuplicateFinder` (duplicate_finder.py) -/

/-- The filesystem observations made by `DuplicateFinder`:
`Path.is_file()`, `Path.stat().st_size` (`none` = `OSError`) and the byte
content readable through `open`/`read` (`none` = `OSError`). -/
structure FileSys where
  is_file : List Char → Bool
  statSize : List Char → Option Nat
  content : List Char → Option (List Nat)

/-- Python dict lookup on an association list. -/
def alookup {β : Type} (k : List Char) : List (List Char × β) → Option β
  | [] => none
  | kv :: rest => if k = kv.1 then some kv.2 else alookup k rest

/-- Python dict assignment `m[k] = v`. -/
def aupdate {β : Type} (k : List Char) (v : β) : List (List Char × β) → List (List Char × β)
  | [] => [(k, v)]
  | kv :: rest => if k = kv.1 then (k, v) :: rest else kv :: aupdate k v rest

/-- `DuplicateFinder._compute_partial_hash` (lines 34-46): SHA-256 hexdigest
of the first `chunk_size` bytes, `""` when the read fails or reads nothing.
`hashFn` abstracts `sha256(chunk).hexdigest()`. -/
def _compute_partial_hash (hashFn : List Nat → List Char) (fs : FileSys)
    (file_path : List Char) (chunk_size : Nat) : List Char :=
  match fs.content file_path with
  | none => []
  | some bytes =>
    let chunk := bytes.take chunk_size
    if chunk = [] then [] else hashFn chunk

/-- `f"{file_size}_{partial_hash}"`. -/
def fileKey (file_size : Nat) (partial_hash : List Char) : List Char :=
  decChars file_size ++ '_' :: partial_hash

/-- The `_file_hashes` index of one `DuplicateFinder` instance. -/
structure DupState where
  file_hashes : List (List Char × List Char)
  deriving DecidableEq

/-- `DuplicateFinder.is_duplicate` (lines 12-32); returns the result and the
updated index. -/
def is_duplicate (hashFn : List Nat → List Char) (fs : FileSys)
    (st : DupState) (file_path : List Char) : Bool × DupState :=
  if fs.is_file file_path = false then (false, st)
  else
    match fs.statSize file_path with
    | none => (false, st)
    | some file_size =>
      let partial_hash := _compute_partial_hash hashFn fs file_path 1048576
      if partial_hash = [] then (false, st)
      else
        let file_key := fileKey file_size partial_hash
        match alookup file_key st.file_hashes with
        | some _ => (true, st)
        | none => (false, ⟨(file_key, file_path) :: st.file_hashes⟩)

/-- `DuplicateFinder.get_original` (lines 48-61).  It only reads the index
(`dict.get`), which is why it returns just the path. -/
def get_original (hashFn : List Nat → List Char) (fs : FileSys)
    (st : DupState) (file_path : List Char) : List Char :=
  if fs.is_file file_path = false then file_path
  else
    match fs.statSize file_path with
    | none => file_path
    | some file_size =>
      let partial_hash := _compute_partial_hash hashFn fs file_path 1048576
      let file_key := fileKey file_size partial_hash
      (alookup file_key st.file_hashes).getD file_path

/-- Every stored key ends in a character other than `'_'` — true of every
index built by `is_duplicate` insertions, since an inserted key ends with
the last character of a nonempty hexdigest. -/
def IndexInv (m : List (List Char × List Char)) : Prop :=
  ∀ kv ∈ m, kv.1.getLast? ≠ some '_'

/-- The two properties of `sha256(·).hexdigest()` the proofs use: the
hexdigest is nonempty and contains no underscore. -/
def HexDigestLike (hashFn : List Nat → List Char) : Prop :=
  (∀ c, hashFn c ≠ []) ∧ (∀ c ch, ch ∈ hashFn c → ch ≠ '_')

/-! ### `Organizer` (organizer.py) -/

inductive SortMode where
  | ProVid | VidRes | ProMax | MaxVid | KeepName | EmojiVid
  deriving DecidableEq

/-- The `Organizer` instance: mode, prefix (`pfx` — the Python field name is
a reserved word here), base directory (as path segments) and the per-key
counters dict. -/
structure Organizer where
  mode : SortMode
  pfx : List Char
  base_dir : List (List Char)
  counters : List (List Char × Nat)
  deriving DecidableEq

/-- The emoji string of `get_destination` (lines 48-56). -/
def emojisOf (m : VideoMetadata) : List Char :=
  (if m.iphone_model.isSome then "📱".data else []) ++
  (if m.has_camera_lens then "📷".data else []) ++
  (if m.has_gps then "🌍".data else []) ++
  (if m.is_edited then "✂️".data else [])

/-- The subfolder of `get_destination` (lines 58-66). -/
def subfolderOf (mode : SortMode) (res orient : List Char) (fps : Nat) : List Char :=
  match mode with
  | .VidRes | .KeepName => res
  | .MaxVid => res ++ ' ' :: orient ++ ' ' :: decChars fps
  | .ProMax => res ++ ' ' :: orient
  | .ProVid | .EmojiVid => []

/-- `format_key = f"{res}|{orient}|{fps}"` (line 71). -/
def formatKey (res orient : List Char) (fps : Nat) : List Char :=
  res ++ '|' :: orient ++ '|' :: decChars fps

/-- Extension normalization (lines 73-76). -/
def extOf (suffix : List Char) : List Char :=
  let e := (suffix.map Char.toLower).filter isAsciiAlnum
  if e = [] then "mov".data else e

/-- The `name_base` composed in the retry loop (lines 83-101), before
sanitization. -/
def composeName (mode : SortMode) (pfx emojis stem res orient : List Char)
    (fps : Nat) (ext : List Char) (counter : Nat) : List Char :=
  if mode = SortMode.KeepName then
    stem ++ '_' :: counter_str counter ++ '.' :: ext
  else if mode = SortMode.EmojiVid then
    joinParts ((if pfx ≠ [] then [pfx] else []) ++
      (if emojis ≠ [] then [emojis] else []) ++
      [counter_str counter ++ '.' :: ext])
  else
    joinParts ((if pfx ≠ [] then [pfx] else []) ++
      [res ++ ' ' :: orient ++ decChars fps] ++
      (if emojis ≠ [] then [emojis] else []) ++
      [counter_str counter ++ '.' :: ext])

/-- `" ".join(parts)` of all parts but the last, with its trailing
separator: `joinParts (ps ++ [l]) = preJoin ps ++ l`. -/
def preJoin : List (List Char) → List Char
  | [] => []
  | p :: ps => p ++ ' ' :: preJoin ps

/-- Everything of `composeName` before the counter:
`composeName mode … c = composeHead mode … ++ (counter_str c ++ '.' :: ext)`
for every counter `c` (`composeName_split` below). -/
def composeHead (mode : SortMode) (pfx emojis stem res orient : List Char)
    (fps : Nat) : List Char :=
  if mode = SortMode.KeepName then stem ++ ['_']
  else if mode = SortMode.EmojiVid then
    preJoin ((if pfx ≠ [] then [pfx] else []) ++ (if emojis ≠ [] then [emojis] else []))
  else
    preJoin ((if pfx ≠ [] then [pfx] else []) ++
      [res ++ ' ' :: orient ++ decChars fps] ++
      (if emojis ≠ [] then [emojis] else []))

/-- The `name_base` composed for counter `c` inside `get_destination`
applied to `metadata` (abbreviation of source-composed terms). -/
def classifiedName (org : Organizer) (stem sfx : List Char) (md : VideoMetadata)
    (c : Nat) : List Char :=
  composeName org.mode org.pfx (emojisOf md) stem (VideoClassifier.classify md).1
    (VideoClassifier.classify md).2.1 (VideoClassifier.classify md).2.2 (extOf sfx) c

/-- The counter value stored in `org.counters` for the category key of
`md`'s classification (0 when the key has never been allocated). -/
def usedCounter (org : Organizer) (md : VideoMetadata) : Nat :=
  (alookup (formatKey (VideoClassifier.classify md).1 (VideoClassifier.classify md).2.1
    (VideoClassifier.classify md).2.2) org.counters).getD 0

/-- The `while True` retry loop of `get_destination` (lines 80-110), made
total by fuel (`none` = fuel exhausted; the Python loop is unbounded).
`dk` is the `dest_path.exists()` observation; paths are segment lists. -/
def findDest (dk : List (List Char) → Bool) (dirSegs : List (List Char))
    (mkName : Nat → List Char) : Nat → Nat → Option (List (List Char) × Nat)
  | 0, _ => none
  | fuel + 1, counter =>
    let dest := dirSegs ++ [mkName counter]
    if dk dest then findDest dk dirSegs mkName fuel (counter + 1)
    else some (dest, counter)

/-- `Organizer.get_destination` (lines 45-110).  The `mkdir` side effect is
not modelled (it does not influence the returned path or counters). -/
def get_destination (dk : List (List Char) → Bool) (org : Organizer)
    (stem suffix : List Char) (metadata : VideoMetadata) (fuel : Nat) :
    Option (List (List Char) × Organizer) :=
  let c := VideoClassifier.classify metadata
  let emojis := emojisOf metadata
  let subfolder := subfolderOf org.mode c.1 c.2.1 c.2.2
  let dirSegs := org.base_dir ++ (if subfolder = [] then [] else [subfolder])
  let format_key := formatKey c.1 c.2.1 c.2.2
  let ext := extOf suffix
  let start := (alookup format_key org.counters).getD 0 + 1
  match findDest dk dirSegs
      (fun k => _sanitize_filename
        (composeName org.mode org.pfx emojis stem c.1 c.2.1 c.2.2 ext k) 200)
      fuel start with
  | none => none
  | some pc =>
    some (pc.1, { org with counters := aupdate format_key pc.2 org.counters })

/-! ### `MainWindow._dedupe_input_roots` (main_window.py lines 912-927) -/

/-- A path as its `Path.parts` segment list. -/
abbrev FsPath := List (List Char)

/-- `p.is_relative_to(root)` for resolved paths: the root's parts are a
prefix of the path's parts. -/
def isRelativeTo (p root : FsPath) : Bool := root.isPrefixOf p

/-- The first loop: resolve (a failing `Path.resolve` — `none` — keeps the
original path) and keep only existing paths. -/
def normalizedOf (resolveF : FsPath → Option FsPath) (existsF : FsPath → Bool)
    (paths : List FsPath) : List FsPath :=
  paths.filterMap (fun p =>
    let resolved := (resolveF p).getD p
    if existsF resolved then some resolved else none)

/-- The second loop over `sorted(set(normalized), key=len(parts))`. -/
def addRoots (roots : List FsPath) : List FsPath → List FsPath
  | [] => roots
  | p :: rest =>
    if roots.any (fun root => p == root || isRelativeTo p root) then addRoots roots rest
    else addRoots (roots ++ [p]) rest

/-- A legal value of Python's `sorted(set(normalized), key=len(parts))`:
duplicate-free, with exactly the members of `normalized`, in nondecreasing
part-count order.  Ties are broken by the set's iteration order, which
Python leaves unspecified — hence a relation, not a function. -/
abbrev ValidSetSort (normalized ys : List FsPath) : Prop :=
  ys.Nodup ∧ (∀ p ∈ ys, p ∈ normalized) ∧ (∀ p ∈ normalized, p ∈ ys) ∧
  ys.Pairwise (fun a b => a.length ≤ b.length)

/-- `MainWindow._dedupe_input_roots`, given the sorted deduplicated list
`ys` (see `ValidSetSort`). -/
def _dedupe_input_roots (ys : List FsPath) : List FsPath := addRoots [] ys

/-- Lexicographic comparison of path segments (character lists). -/
def segLt : List Char → List Char → Bool
  | [], [] => false
  | [], _ :: _ => true
  | _ :: _, [] => false
  | a :: as, b :: bs => if a < b then true else if a = b then segLt as bs else false

/-- Lexicographic comparison of paths. -/
def pathLexLe : FsPath → FsPath → Bool
  | [], _ => true
  | _ :: _, [] => false
  | a :: as, b :: bs => if segLt a b then true else if a = b then pathLexLe as bs else false

/-- The output order asserted by the spec: by path depth, ties broken
lexicographically. -/
abbrev depthThenLex (a b : FsPath) : Prop :=
  a.length < b.length ∨ (a.length = b.length ∧ pathLexLe a b = true)

/-! ### `ScanWorker.run` (main_window.py lines 178-206) -/

/-- The per-file result dict emitted by `ScanWorker.run` (the `filename`
basename echo of `filepath` is not separately modelled). -/
structure ScanRecord where
  filepath : List Char
  resolution : List Char
  orientation : List Char
  fps : Nat
  width : Nat
  height : Nat
  iphone : Option (List Char)
  has_gps : Bool
  has_camera : Bool
  is_duplicate : Bool
  deriving DecidableEq

/-- One iteration of the `ScanWorker.run` loop: duplicate check, then probe
(`probe fp = none` models `MetadataExtractor.extract` raising), then the
record.  Exceptions fall back to `("SD", "W", 30)` with zeroed metadata. -/
def scanStep (hashFn : List Nat → List Char) (fs : FileSys)
    (probe : List Char → Option VideoMetadata)
    (st : DupState) (fp : List Char) : ScanRecord × DupState :=
  let r := is_duplicate hashFn fs st fp
  match probe fp with
  | some md =>
    let c := VideoClassifier.classify md
    ({ filepath := fp, resolution := c.1, orientation := c.2.1, fps := c.2.2
       width := md.width, height := md.height, iphone := md.iphone_model
       has_gps := md.has_gps, has_camera := md.has_camera_lens
       is_duplicate := r.1 }, r.2)
  | none =>
    ({ filepath := fp, resolution := "SD".data, orientation := "W".data, fps := 30
       width := 0, height := 0, iphone := none, has_gps := false
       has_camera := false, is_duplicate := r.1 }, r.2)

/-- `ScanWorker.run` without cancellation (`self.running` stays true): the
emitted records, in emission order. -/
def ScanWorker_run (hashFn : List Nat → List Char) (fs : FileSys)
    (probe : List Char → Option VideoMetadata) :
    DupState → List (List Char) → List ScanRecord
  | _, [] => []
  | st, fp :: rest =>
    let r := scanStep hashFn fs probe st fp
    r.1 :: ScanWorker_run hashFn fs probe r.2 rest

/-! ### Helper lemmas: the sanitizer pipeline -/

theorem squeeze_length_le (p : Char → Bool) (rep : Char) :
    ∀ l : List Char, (squeeze p rep l).length ≤ l.length := by
  intro l
  induction l with
  | nil => simp [squeeze]
  | cons c1 tl ih =>
    cases tl with
    | nil => simp [squeeze]
    | cons c2 rest =>
      unfold squeeze
      split
      · exact le_trans ih (by simp)
      · simp only [List.length_cons]
        simp only [List.length_cons] at ih
        omega

theorem stripBoth_length_le (p : Char → Bool) (l : List Char) :
    (stripBoth p l).length ≤ l.length := by
  unfold stripBoth
  calc (((l.dropWhile p).reverse.dropWhile p).reverse).length
      = ((l.dropWhile p).reverse.dropWhile p).length := List.length_reverse _
    _ ≤ (l.dropWhile p).reverse.length := (List.dropWhile_sublist p).length_le
    _ = (l.dropWhile p).length := List.length_reverse _
    _ ≤ l.length := (List.dropWhile_sublist p).length_le

theorem sanitizeCore_length_le (name : List Char) :
    (sanitizeCore name).length ≤ name.length := by
  unfold sanitizeCore
  calc (stripBoth isTrimChar (squeeze (fun c => c = '_') '_'
          (squeeze pyIsSpace ' ' (name.map (fun c => if isForbidden c then '_' else c))))).length
      ≤ (squeeze (fun c => c = '_') '_'
          (squeeze pyIsSpace ' ' (name.map (fun c => if isForbidden c then '_' else c)))).length :=
        stripBoth_length_le _ _
    _ ≤ (squeeze pyIsSpace ' ' (name.map (fun c => if isForbidden c then '_' else c))).length :=
        squeeze_length_le _ _ _
    _ ≤ (name.map (fun c => if isForbidden c then '_' else c)).length := squeeze_length_le _ _ _
    _ = name.length := List.length_map _ _

theorem sanitize_eq_core (name : List Char) (ml : Nat)
    (h : (sanitizeCore name).length ≤ ml) :
    _sanitize_filename name ml = sanitizeCore name := by
  unfold _sanitize_filename
  rw [if_neg (by omega)]

theorem squeeze_mem (p : Char → Bool) (rep : Char) :
    ∀ l c, c ∈ squeeze p rep l → c = rep ∨ c ∈ l := by
  intro l
  induction l with
  | nil => intro c hc; simp [squeeze] at hc
  | cons c1 tl ih =>
    cases tl with
    | nil =>
      intro c hc
      simp only [squeeze, List.mem_singleton] at hc
      subst hc
      split
      · exact Or.inl rfl
      · exact Or.inr (by simp)
    | cons c2 rest =>
      intro c hc
      unfold squeeze at hc
      split at hc
      · rcases ih c hc with h | h
        · exact Or.inl h
        · exact Or.inr (List.mem_cons_of_mem _ h)
      · rcases List.mem_cons.1 hc with h | h
        · subst h
          split
          · exact Or.inl rfl
          · exact Or.inr (by simp)
        · rcases ih c h with h' | h'
          · exact Or.inl h'
          · exact Or.inr (List.mem_cons_of_mem _ h')

theorem stripBoth_mem (p : Char → Bool) (l : List Char) (c : Char)
    (h : c ∈ stripBoth p l) : c ∈ l := by
  unfold stripBoth at h
  rw [List.mem_reverse] at h
  have h1 := (List.dropWhile_sublist (l := (l.dropWhile p).reverse) p).mem h
  rw [List.mem_reverse] at h1
  exact (List.dropWhile_sublist p).mem h1

theorem rsplitDot_mem (l : List Char) (be : List Char × List Char)
    (h : rsplitDot l = some be) :
    (∀ c ∈ be.1, c ∈ l) ∧ (∀ c ∈ be.2, c ∈ l) := by
  unfold rsplitDot at h
  cases hd : l.reverse.dropWhile (fun c => c ≠ '.') with
  | nil =>
    simp only [hd] at h
    exact absurd h (by simp)
  | cons x baseRev =>
    simp only [hd, Option.some.injEq] at h
    subst h
    constructor
    · intro c hc
      simp only [List.mem_reverse] at hc
      have : c ∈ x :: baseRev := List.mem_cons_of_mem _ hc
      rw [← hd] at this
      have := (List.dropWhile_sublist (fun c => c ≠ '.')).mem this
      rwa [List.mem_reverse] at this
    · intro c hc
      simp only [List.mem_reverse] at hc
      have := (List.takeWhile_sublist (fun c => c ≠ '.')).mem hc
      rwa [List.mem_reverse] at this

theorem mapReplace_not_forbidden (name : List Char) (c : Char)
    (h : c ∈ name.map (fun c => if isForbidden c then '_' else c)) :
    isForbidden c = false := by
  rcases List.mem_map.1 h with ⟨a, _, rfl⟩
  split
  · decide
  · rename_i hf
    simpa using hf

theorem sanitizeCore_not_forbidden (name : List Char) (c : Char)
    (h : c ∈ sanitizeCore name) : isForbidden c = false := by
  unfold sanitizeCore at h
  have h1 := stripBoth_mem _ _ _ h
  rcases squeeze_mem _ _ _ _ h1 with h2 | h2
  · subst h2; decide
  rcases squeeze_mem _ _ _ _ h2 with h3 | h3
  · subst h3; decide
  exact mapReplace_not_forbidden _ _ h3

theorem sanitize_not_forbidden (name : List Char) (ml : Nat) (c : Char)
    (h : c ∈ _sanitize_filename name ml) : isForbidden c = false := by
  simp only [_sanitize_filename] at h
  split at h
  · split at h
    · rename_i be heq
      split at h
      · rcases List.mem_append.1 h with h' | h'
        · exact sanitizeCore_not_forbidden _ _
            ((rsplitDot_mem _ _ heq).1 c ((List.take_sublist _ _).mem h'))
        · rcases List.mem_cons.1 h' with h'' | h''
          · subst h''; decide
          · exact sanitizeCore_not_forbidden _ _ ((rsplitDot_mem _ _ heq).2 c h'')
      · exact sanitizeCore_not_forbidden _ _ ((List.take_sublist _ _).mem h)
    · exact sanitizeCore_not_forbidden _ _ ((List.take_sublist _ _).mem h)
  · exact sanitizeCore_not_forbidden _ _ h

/-! ### Claim C10 — frame-rate bucket boundary -/

/-- C10: the frame-rate bucket of fps = 45 is exactly 30 and of
fps = 45.01 exactly 60; for every fps the bucket is 60 iff fps > 45; and
the organizer's inline bucket agrees with `classify_framerate`. -/
theorem C10_framerate_boundary :
    classify_framerate 45 = 30 ∧ classify_framerate (mkRat 4501 100) = 60 ∧
    (∀ fps : Rat, classify_framerate fps = 60 ↔ 45 < fps) ∧
    (∀ m : VideoMetadata, (VideoClassifier.classify m).2.2 = classify_framerate m.fps) := by
  refine ⟨by decide, by decide, fun fps => ?_, fun m => rfl⟩
  unfold classify_framerate
  split <;> simp_all

/-! ### Claim C1 — rotation correction at classification time -/

/-- C1 counterexample: `VideoClassifier.classify` ignores the rotation
field, so the metadata record (1920, 1080, rotation=90) classifies with
orientation W while (1080, 1920, rotation=0) classifies with orientation V
— not the same, contrary to the claim. -/
theorem C1_rotation_counterexample :
    (VideoClassifier.classify ⟨1920, 1080, 90, 30, none, false, false, false⟩).2.1 = "W".data ∧
    (VideoClassifier.classify ⟨1080, 1920, 0, 30, none, false, false, false⟩).2.1 = "V".data ∧
    VideoClassifier.classify ⟨1920, 1080, 90, 30, none, false, false, false⟩ ≠
      VideoClassifier.classify ⟨1080, 1920, 0, 30, none, false, false, false⟩ :=
  ⟨by decide, by decide, by decide⟩

/-- C1 amended: for `classify_video_properties` (the video_tools
classifier) the claim holds — classifying (w, h, rotation ∈ {90, 270})
equals classifying (h, w, rotation = 0), the swap being applied exactly
once before the orientation and resolution tests.  `VideoClassifier.classify`
(core organizer), by contrast, never consults rotation: on the core path
the swap happens once at extraction time, in `MetadataExtractor.extract`. -/
theorem C1_properties_rotation_once (w h : Nat) (fps : Rat) (r : Nat)
    (hr : r = 90 ∨ r = 270) :
    classify_video_properties w h fps r = classify_video_properties h w fps 0 := by
  rcases hr with hr | hr <;> subst hr <;>
    simp [classify_video_properties, apply_rotation_correction]

/-- Witness for `C1_properties_rotation_once` at the claim's own numbers. -/
theorem C1_properties_rotation_once_witness :
    classify_video_properties 1920 1080 30 90 = classify_video_properties 1080 1920 30 0 :=
  C1_properties_rotation_once 1920 1080 30 90 (Or.inl rfl)

/-! ### Claim C5 — the filename sanitization rule -/

/-- C5 counterexample: the sanitizer maps "my:file?.mov" to
"my_file_.mov", not "my_file.mov" — the underscore that replaced `?` stays
in front of the extension dot (no rule removes an underscore before a
dot). -/
theorem C5_sanitize_counterexample :
    _sanitize_filename "my:file?.mov".data 200 = "my_file_.mov".data ∧
    _sanitize_filename "my:file?.mov".data 200 ≠ "my_file.mov".data :=
  ⟨by decide, by decide⟩

/-- C5 amended: sanitizing "my:file?.mov" yields exactly "my_file_.mov";
in general (within the 200-character cap) the rule is exactly
replace-forbidden/collapse-whitespace/collapse-underscores/trim
(`sanitizeCore`), forbidden characters never survive it, and the
collapse/trim behaviours hold as stated. -/
theorem C5_sanitize_rule :
    _sanitize_filename "my:file?.mov".data 200 = "my_file_.mov".data ∧
    (∀ name : List Char, name.length ≤ 200 → _sanitize_filename name 200 = sanitizeCore name) ∧
    (∀ (name : List Char) (ml : Nat) (c : Char),
      c ∈ _sanitize_filename name ml → isForbidden c = false) ∧
    _sanitize_filename "a  \t b".data 200 = "a b".data ∧
    _sanitize_filename "a___b".data 200 = "a_b".data ∧
    _sanitize_filename " _a_ _".data 200 = "a".data := by
  refine ⟨by decide, fun name hlen => ?_, sanitize_not_forbidden, by decide, by decide, by decide⟩
  exact sanitize_eq_core name 200 (le_trans (sanitizeCore_length_le name) hlen)

/-- Witness for `C5_sanitize_rule`: the no-truncation and no-forbidden
clauses discharged at concrete inputs. -/
theorem C5_sanitize_rule_witness :
    _sanitize_filename "ab".data 200 = sanitizeCore "ab".data ∧ isForbidden 'a' = false :=
  ⟨C5_sanitize_rule.2.1 "ab".data (by decide),
    C5_sanitize_rule.2.2.1 "ab".data 200 'a' (by decide)⟩

/-! ### Claim C6 — tree sanitizer vs filename sanitizer -/

/-- C6 counterexample: the directory-tree sanitizer
(`MainWindow._sanitize_segment`) does not compute the §4.3 filename rule
(`Organizer._sanitize_filename`): they already disagree on the spec's own
example "my:file?.mov", and also on "my file.mov". -/
theorem C6_sanitizers_counterexample :
    _sanitize_segment "my:file?.mov".data ≠ _sanitize_filename "my:file?.mov".data 200 ∧
    _sanitize_segment "my file.mov".data ≠ _sanitize_filename "my file.mov".data 200 :=
  ⟨by decide, by decide⟩

/-- C6 amended: the tree sanitizer implements a different, stricter rule
(whitespace runs become underscores, every character outside
`[A-Za-z0-9._-]` becomes an underscore, underscores are collapsed and
dropped before dots, `"._-"` is trimmed, and an empty result becomes
"untitled" — so its output is never empty); it is not equivalent to the
§4.3 rule: `"my:file?.mov"` maps to `"my_file.mov"` under the tree rule
but `"my_file_.mov"` under §4.3, and `"my file.mov"` maps to
`"my_file.mov"` vs `"my file.mov"`. -/
theorem C6_segment_rule :
    _sanitize_segment "my:file?.mov".data = "my_file.mov".data ∧
    _sanitize_filename "my:file?.mov".data 200 = "my_file_.mov".data ∧
    _sanitize_segment "my file.mov".data = "my_file.mov".data ∧
    _sanitize_filename "my file.mov".data 200 = "my file.mov".data ∧
    (∀ text : List Char, 1 ≤ (_sanitize_segment text).length) := by
  refine ⟨by decide, by decide, by decide, by decide, fun text => ?_⟩
  simp only [_sanitize_segment]
  split
  · decide
  · rename_i hne
    exact List.length_pos.mpr hne

/-! ### Helper lemmas: the fingerprint index -/

theorem alookup_eq_none {β : Type} (k : List Char) (m : List (List Char × β))
    (h : ∀ kv ∈ m, k ≠ kv.1) : alookup k m = none := by
  induction m with
  | nil => rfl
  | cons kv rest ih =>
    unfold alookup
    rw [if_neg (h kv (by simp))]
    exact ih (fun kv' h' => h kv' (List.mem_cons_of_mem _ h'))

/-- `_compute_partial_hash` either fails to `""` or is the hexdigest of the
nonempty chunk it read. -/
theorem partial_hash_cases (hashFn : List Nat → List Char) (fs : FileSys)
    (p : List Char) (n : Nat) :
    _compute_partial_hash hashFn fs p n = [] ∨
    ∃ chunk, chunk ≠ [] ∧ _compute_partial_hash hashFn fs p n = hashFn chunk := by
  unfold _compute_partial_hash
  cases fs.content p with
  | none => exact Or.inl rfl
  | some bytes =>
    by_cases hc : bytes.take n = []
    · exact Or.inl (by simp [hc])
    · exact Or.inr ⟨bytes.take n, hc, by simp [hc]⟩

theorem fileKey_getLast (sz : Nat) (ph : List Char) (h : ph ≠ []) :
    (fileKey sz ph).getLast? = ph.getLast? := by
  unfold fileKey
  rcases List.eq_nil_or_concat ph with rfl | ⟨L, b, rfl⟩
  · exact absurd rfl h
  · rw [List.concat_eq_append]
    rw [show decChars sz ++ '_' :: (L ++ [b]) = (decChars sz ++ '_' :: L) ++ [b] by simp]
    rw [List.getLast?_concat, List.getLast?_concat]

/-! ### Claim C2 — `is_duplicate` -/

/-- C2: on a readable non-empty file whose (size, partial-hash) key is
already indexed, `is_duplicate` answers true and leaves the index as it
was (first-seen wins); on an absent key it inserts key → path and answers
false; an unreadable size or a zero-byte read answers false with no index
mutation — in particular two zero-byte files are never reported as
duplicates of each other. -/
theorem C2_is_duplicate_spec (hashFn : List Nat → List Char)
    (hne : ∀ c, hashFn c ≠ []) :
    (∀ fs st p sz bytes, fs.is_file p = true → fs.statSize p = some sz →
      fs.content p = some bytes → bytes.take 1048576 ≠ [] →
      ∀ orig, alookup (fileKey sz (hashFn (bytes.take 1048576))) st.file_hashes = some orig →
      is_duplicate hashFn fs st p = (true, st)) ∧
    (∀ fs st p sz bytes, fs.is_file p = true → fs.statSize p = some sz →
      fs.content p = some bytes → bytes.take 1048576 ≠ [] →
      alookup (fileKey sz (hashFn (bytes.take 1048576))) st.file_hashes = none →
      is_duplicate hashFn fs st p =
        (false, ⟨(fileKey sz (hashFn (bytes.take 1048576)), p) :: st.file_hashes⟩)) ∧
    (∀ fs st p, fs.statSize p = none → is_duplicate hashFn fs st p = (false, st)) ∧
    (∀ fs st p bytes, fs.content p = some bytes → bytes.take 1048576 = [] →
      is_duplicate hashFn fs st p = (false, st)) ∧
    (∀ fs st p1 p2, fs.content p1 = some [] → fs.content p2 = some [] →
      (is_duplicate hashFn fs st p1).1 = false ∧
      (is_duplicate hashFn fs ((is_duplicate hashFn fs st p1).2) p2).1 = false) := by
  have zmain : ∀ fs st p bytes, fs.content p = some bytes → bytes.take 1048576 = [] →
      is_duplicate hashFn fs st p = (false, st) := by
    intro fs st p bytes hcontent htake
    unfold is_duplicate
    by_cases hf : fs.is_file p = false
    · rw [if_pos hf]
    · rw [if_neg hf]
      cases hsz : fs.statSize p with
      | none => rfl
      | some sz => simp [_compute_partial_hash, hcontent, htake]
  refine ⟨?_, ?_, ?_, zmain, ?_⟩
  · intro fs st p sz bytes hfile hsz hcontent hchunk orig horig
    unfold is_duplicate
    rw [if_neg (by simp [hfile])]
    rw [hsz]
    simp [_compute_partial_hash, hcontent, hchunk, hne, horig]
  · intro fs st p sz bytes hfile hsz hcontent hchunk hnone
    unfold is_duplicate
    rw [if_neg (by simp [hfile])]
    rw [hsz]
    simp [_compute_partial_hash, hcontent, hchunk, hne, hnone]
  · intro fs st p hsz
    unfold is_duplicate
    by_cases hf : fs.is_file p = false
    · rw [if_pos hf]
    · rw [if_neg hf, hsz]
  · intro fs st p1 p2 h1 h2
    rw [zmain fs st p1 [] h1 (by simp)]
    exact ⟨rfl, by rw [zmain fs st p2 [] h2 (by simp)]⟩

/-- Witness for `C2_is_duplicate_spec`: a concrete duplicate hit returns
true and leaves the index untouched. -/
theorem C2_is_duplicate_spec_witness :
    is_duplicate (fun _ => ['h'])
      ⟨fun _ => true, fun _ => some 1, fun _ => some [7]⟩
      ⟨[(fileKey 1 ['h'], "a".data)]⟩ "b".data =
      (true, ⟨[(fileKey 1 ['h'], "a".data)]⟩) :=
  (C2_is_duplicate_spec (fun _ => ['h']) (fun c => by simp)).1
    ⟨fun _ => true, fun _ => some 1, fun _ => some [7]⟩
    ⟨[(fileKey 1 ['h'], "a".data)]⟩ "b".data 1 [7] rfl rfl rfl (by decide)
    "a".data (by decide)

/-- Reduction of `is_duplicate` on a statable file. -/
theorem is_duplicate_some_sz (hashFn : List Nat → List Char) (fs : FileSys)
    (st : DupState) (p : List Char) (sz : Nat)
    (hf : ¬fs.is_file p = false) (hsz : fs.statSize p = some sz) :
    is_duplicate hashFn fs st p =
      (if _compute_partial_hash hashFn fs p 1048576 = [] then (false, st)
       else
         match alookup (fileKey sz (_compute_partial_hash hashFn fs p 1048576))
             st.file_hashes with
         | some _ => (true, st)
         | none =>
           (false,
             ⟨(fileKey sz (_compute_partial_hash hashFn fs p 1048576), p) ::
               st.file_hashes⟩)) := by
  unfold is_duplicate
  rw [if_neg hf, hsz]

/-- Reduction of `get_original` on a statable file. -/
theorem get_original_some_sz (hashFn : List Nat → List Char) (fs : FileSys)
    (st : DupState) (p : List Char) (sz : Nat)
    (hf : ¬fs.is_file p = false) (hsz : fs.statSize p = some sz) :
    get_original hashFn fs st p =
      (alookup (fileKey sz (_compute_partial_hash hashFn fs p 1048576))
        st.file_hashes).getD p := by
  unfold get_original
  rw [if_neg hf, hsz]

/-! ### Claim C9 — `get_original` -/

/-- C9: `get_original` returns the stored first-seen path when the
(size, partial-hash) key is indexed, and the input path itself when the
key is absent or the size/hash computation fails (the hash-failure case
uses the invariant that every stored key ends in a hexdigest character,
which `is_duplicate` — the only writer — preserves from the empty index);
it is total (never raises) and never mutates the index, which it only
reads. -/
theorem C9_get_original_spec (hashFn : List Nat → List Char)
    (hhex : HexDigestLike hashFn) :
    (∀ fs st p, fs.is_file p = false → get_original hashFn fs st p = p) ∧
    (∀ fs st p, fs.statSize p = none → get_original hashFn fs st p = p) ∧
    (∀ fs st p sz, fs.is_file p = true → fs.statSize p = some sz →
      ∀ orig, alookup (fileKey sz (_compute_partial_hash hashFn fs p 1048576))
          st.file_hashes = some orig →
      get_original hashFn fs st p = orig) ∧
    (∀ fs st p sz, fs.is_file p = true → fs.statSize p = some sz →
      alookup (fileKey sz (_compute_partial_hash hashFn fs p 1048576))
          st.file_hashes = none →
      get_original hashFn fs st p = p) ∧
    (∀ fs st p, IndexInv st.file_hashes →
      _compute_partial_hash hashFn fs p 1048576 = [] →
      get_original hashFn fs st p = p) ∧
    (∀ fs st p, IndexInv st.file_hashes →
      IndexInv ((is_duplicate hashFn fs st p).2).file_hashes) ∧
    IndexInv (DupState.mk []).file_hashes := by
  refine ⟨?_, ?_, ?_, ?_, ?_, ?_, by intro kv h; simp at h⟩
  · intro fs st p hf
    unfold get_original
    rw [if_pos hf]
  · intro fs st p hsz
    unfold get_original
    by_cases hf : fs.is_file p = false
    · rw [if_pos hf]
    · rw [if_neg hf, hsz]
  · intro fs st p sz hfile hsz orig horig
    unfold get_original
    rw [if_neg (by simp [hfile]), hsz]
    simp [horig]
  · intro fs st p sz hfile hsz hnone
    unfold get_original
    rw [if_neg (by simp [hfile]), hsz]
    simp [hnone]
  · intro fs st p hinv hph
    by_cases hf : fs.is_file p = false
    · unfold get_original
      rw [if_pos hf]
    · cases hsz : fs.statSize p with
      | none =>
        unfold get_original
        rw [if_neg hf, hsz]
      | some sz =>
        rw [get_original_some_sz hashFn fs st p sz hf hsz, hph]
        rw [alookup_eq_none _ _ (fun kv hkv hk => ?_)]
        · rfl
        · have hlast := hinv kv hkv
          apply hlast
          rw [← hk]
          unfold fileKey
          exact List.getLast?_concat _
  · intro fs st p hinv
    by_cases hf : fs.is_file p = false
    · unfold is_duplicate
      rwa [if_pos hf]
    · cases hsz : fs.statSize p with
      | none =>
        unfold is_duplicate
        rw [if_neg hf, hsz]
        exact hinv
      | some sz =>
        rw [is_duplicate_some_sz hashFn fs st p sz hf hsz]
        by_cases hph0 : _compute_partial_hash hashFn fs p 1048576 = []
        · rw [if_pos hph0]; exact hinv
        · rw [if_neg hph0]
          cases hl : alookup (fileKey sz (_compute_partial_hash hashFn fs p 1048576))
              st.file_hashes with
          | some v => exact hinv
          | none =>
            intro kv hkv
            rcases List.mem_cons.1 hkv with rfl | hkv'
            · rcases partial_hash_cases hashFn fs p 1048576 with hc | ⟨chunk, _, hc⟩
              · exact absurd hc hph0
              · rw [fileKey_getLast _ _ (by rw [hc]; exact hhex.1 chunk)]
                rcases List.eq_nil_or_concat (_compute_partial_hash hashFn fs p 1048576)
                  with hnil | ⟨L, b, hcat⟩
                · exact absurd hnil hph0
                · rw [hcat, List.concat_eq_append, List.getLast?_concat]
                  intro hsome
                  have hb : b ∈ hashFn chunk := by
                    rw [← hc, hcat, List.concat_eq_append]
                    simp
                  exact hhex.2 chunk b hb (by injection hsome)
            · exact hinv kv hkv'

/-- Witness for `C9_get_original_spec`: the unreadable-size clause at a
concrete filesystem returns the input path. -/
theorem C9_get_original_spec_witness :
    get_original (fun _ => ['h'])
      ⟨fun _ => true, fun _ => none, fun _ => none⟩ ⟨[]⟩ "x".data = "x".data :=
  (C9_get_original_spec (fun _ => ['h'])
      ⟨fun c => by simp, fun c ch hch => by simp at hch; simp [hch]⟩).2.1
    ⟨fun _ => true, fun _ => none, fun _ => none⟩ ⟨[]⟩ "x".data rfl

/-! ### Claim C8 — the batch scan pipeline -/

/-- C8: without cancellation the scan loop emits exactly one record per
input file, in input order (the filepaths of the records are the files
themselves); a file whose probe fails receives the fallback
classification (SD, W, 30) in its record and processing continues; and
`classify_video` likewise answers the documented fallback record when the
probe fails. -/
theorem C8_scan_pipeline (hashFn : List Nat → List Char) (fs : FileSys)
    (probe : List Char → Option VideoMetadata) :
    (∀ files st, (ScanWorker_run hashFn fs probe st files).map ScanRecord.filepath = files) ∧
    (∀ files st r, r ∈ ScanWorker_run hashFn fs probe st files →
      probe r.filepath = none →
      r.resolution = "SD".data ∧ r.orientation = "W".data ∧ r.fps = 30 ∧
      r.width = 0 ∧ r.height = 0) ∧
    classify_video none =
      { resolution := "SD".data, orientation := "W".data, framerate_category := 30
        width := 0, height := 0, make := none, model := none
        has_camera := false, has_gps := false, success := false } := by
  refine ⟨fun files => ?_, fun files => ?_, rfl⟩
  · induction files with
    | nil => intro st; rfl
    | cons fp rest ih =>
      intro st
      unfold ScanWorker_run
      simp only [List.map_cons, ih]
      unfold scanStep
      cases probe fp <;> simp
  · induction files with
    | nil => intro st r hr; simp [ScanWorker_run] at hr
    | cons fp rest ih =>
      intro st r hr hprobe
      unfold ScanWorker_run at hr
      rcases List.mem_cons.1 hr with rfl | hr'
      · unfold scanStep
        cases hp : probe fp with
        | some md =>
          unfold scanStep at hprobe
          rw [hp] at hprobe
          simp at hprobe
          rw [hprobe] at hp
          exact absurd hp (by simp [hprobe])
        | none => simp
      · exact ih _ r hr' hprobe

/-- Witness for `C8_scan_pipeline`: a one-file batch with a failing probe
emits the fallback record. -/
theorem C8_scan_pipeline_witness :
    (⟨"a".data, "SD".data, "W".data, 30, 0, 0, none, false, false, false⟩ :
        ScanRecord).resolution = "SD".data ∧
    (⟨"a".data, "SD".data, "W".data, 30, 0, 0, none, false, false, false⟩ :
        ScanRecord).orientation = "W".data ∧
    (⟨"a".data, "SD".data, "W".data, 30, 0, 0, none, false, false, false⟩ :
        ScanRecord).fps = 30 ∧
    (⟨"a".data, "SD".data, "W".data, 30, 0, 0, none, false, false, false⟩ :
        ScanRecord).width = 0 ∧
    (⟨"a".data, "SD".data, "W".data, 30, 0, 0, none, false, false, false⟩ :
        ScanRecord).height = 0 :=
  (C8_scan_pipeline (fun _ => ['h'])
      ⟨fun _ => false, fun _ => none, fun _ => none⟩ (fun _ => none)).2.1
    ["a".data] ⟨[]⟩
    ⟨"a".data, "SD".data, "W".data, 30, 0, 0, none, false, false, false⟩
    (by decide) rfl

/-! ### Helper lemmas: decimal counters -/

theorem charVal_digitChar (d : Nat) (h : d < 10) : charVal (digitChar d) = d := by
  interval_cases d <;> decide

theorem decCharsGo_val (fuel : Nat) :
    ∀ m a, m < fuel →
      List.foldl (fun acc c => 10 * acc + charVal c) a (decCharsGo fuel m) =
        a * 10 ^ (decCharsGo fuel m).length + m := by
  induction fuel with
  | zero => intro m a h; omega
  | succ fuel ih =>
    intro m a h
    unfold decCharsGo
    by_cases h10 : m < 10
    · rw [if_pos h10]
      simp only [List.foldl_cons, List.foldl_nil, List.length_cons, List.length_nil,
        charVal_digitChar m h10, pow_succ, pow_zero]
      omega
    · rw [if_neg h10]
      have hq : m / 10 < fuel := by
        have h1 : m / 10 < m := Nat.div_lt_self (by omega) (by omega)
        omega
      rw [List.foldl_append, ih (m / 10) a hq]
      simp only [List.foldl_cons, List.foldl_nil, List.length_append, List.length_cons,
        List.length_nil]
      rw [charVal_digitChar (m % 10) (Nat.mod_lt m (by omega))]
      have key : 10 * (a * 10 ^ (decCharsGo fuel (m / 10)).length + m / 10) + m % 10 =
          a * (10 ^ (decCharsGo fuel (m / 10)).length * 10) + (10 * (m / 10) + m % 10) := by
        ring
      rw [key, Nat.div_add_mod, ← pow_succ]

theorem decChars_val (m : Nat) :
    List.foldl (fun acc c => 10 * acc + charVal c) 0 (decChars m) = m := by
  have h := decCharsGo_val (m + 1) m 0 (Nat.lt_succ_self m)
  simpa using h

theorem foldl_replicate_zero (k : Nat) :
    List.foldl (fun acc c => 10 * acc + charVal c) 0 (List.replicate k '0') = 0 := by
  have h0 : charVal '0' = 0 := by decide
  induction k with
  | zero => rfl
  | succ k ih => simpa [List.replicate_succ, h0] using ih

theorem counter_str_val (c : Nat) :
    List.foldl (fun acc c => 10 * acc + charVal c) 0 (counter_str c) = c := by
  unfold counter_str pad3
  rw [List.foldl_append, foldl_replicate_zero]
  exact decChars_val c

theorem counter_str_inj (c1 c2 : Nat) (h : counter_str c1 = counter_str c2) : c1 = c2 := by
  have h1 := counter_str_val c1
  rw [h, counter_str_val c2] at h1
  omega

theorem digitChar_mem_digitList (d : Nat) (h : d < 10) :
    digitChar d ∈ ['0', '1', '2', '3', '4', '5', '6', '7', '8', '9'] := by
  interval_cases d <;> decide

theorem decCharsGo_digitList (fuel : Nat) :
    ∀ m c, c ∈ decCharsGo fuel m →
      c ∈ ['0', '1', '2', '3', '4', '5', '6', '7', '8', '9'] := by
  induction fuel with
  | zero => intro m c hc; simp [decCharsGo] at hc
  | succ fuel ih =>
    intro m c hc
    unfold decCharsGo at hc
    split at hc
    · rename_i h10
      simp only [List.mem_singleton] at hc
      subst hc
      exact digitChar_mem_digitList m h10
    · rcases List.mem_append.1 hc with h | h
      · exact ih _ _ h
      · simp only [List.mem_singleton] at h
        subst h
        exact digitChar_mem_digitList (m % 10) (Nat.mod_lt m (by omega))

theorem counter_str_digitList (n : Nat) (c : Char) (hc : c ∈ counter_str n) :
    c ∈ ['0', '1', '2', '3', '4', '5', '6', '7', '8', '9'] := by
  unfold counter_str pad3 at hc
  rcases List.mem_append.1 hc with h | h
  · rw [List.eq_of_mem_replicate h]
    decide
  · exact decCharsGo_digitList _ _ _ h

theorem counter_str_ne_nil (c : Nat) : counter_str c ≠ [] := by
  unfold counter_str pad3 decChars decCharsGo
  by_cases h : c < 10
  · rw [if_pos h]; simp
  · rw [if_neg h]; simp

theorem digitList_safe (c : Char)
    (h : c ∈ ['0', '1', '2', '3', '4', '5', '6', '7', '8', '9']) :
    isForbidden c = false ∧ pyIsSpace c = false ∧ isTrimChar c = false ∧ c ≠ '_' := by
  fin_cases h <;> exact ⟨by decide, by decide, by decide, by decide⟩

theorem alnum_safe (c : Char) (h : isAsciiAlnum c = true) :
    isForbidden c = false ∧ pyIsSpace c = false ∧ isTrimChar c = false ∧ c ≠ '_' := by
  unfold isAsciiAlnum at h
  simp only [Bool.or_eq_true, Bool.and_eq_true, decide_eq_true_eq] at h
  refine ⟨?_, ?_, ?_, ?_⟩
  · by_contra hb
    rw [Bool.not_eq_false] at hb
    unfold isForbidden at hb
    simp only [Bool.or_eq_true, decide_eq_true_eq] at hb
    rcases hb with ((((((((rfl | rfl) | rfl) | rfl) | rfl) | rfl) | rfl) | rfl) | rfl) <;>
      exact absurd h (by decide)
  · by_contra hb
    rw [Bool.not_eq_false] at hb
    unfold pyIsSpace at hb
    simp only [Bool.or_eq_true, decide_eq_true_eq] at hb
    rcases hb with (((((rfl | rfl) | rfl) | rfl) | rfl) | rfl) <;> exact absurd h (by decide)
  · by_contra hb
    rw [Bool.not_eq_false] at hb
    unfold isTrimChar at hb
    simp only [Bool.or_eq_true, decide_eq_true_eq] at hb
    rcases hb with rfl | rfl <;> exact absurd h (by decide)
  · intro hc
    subst hc
    exact absurd h (by decide)

/-! ### Helper lemmas: sanitizer factorization over the counter tail -/

theorem squeeze_id (p : Char → Bool) (rep : Char) :
    ∀ y : List Char, (∀ c ∈ y, p c = false) → squeeze p rep y = y := by
  intro y
  induction y with
  | nil => intro _; rfl
  | cons c tl ih =>
    cases tl with
    | nil =>
      intro hy
      simp [squeeze, hy c (by simp)]
    | cons c2 rest =>
      intro hy
      have h1 : p c = false := hy c (by simp)
      have h2 : p c2 = false := hy c2 (by simp)
      unfold squeeze
      rw [if_neg (by simp [h1])]
      rw [ih (fun c hc => hy c (List.mem_cons_of_mem _ hc))]
      simp [h1]

theorem squeeze_append (p : Char → Bool) (rep : Char) (x y : List Char)
    (hy0 : y ≠ []) (hy : ∀ c ∈ y, p c = false) :
    squeeze p rep (x ++ y) = squeeze p rep x ++ y := by
  induction x with
  | nil => simp [squeeze, squeeze_id p rep y hy]
  | cons c1 tl ih =>
    cases tl with
    | nil =>
      cases y with
      | nil => exact absurd rfl hy0
      | cons y0 ys =>
        have hy0' : p y0 = false := hy y0 (by simp)
        show squeeze p rep (c1 :: y0 :: ys) = squeeze p rep [c1] ++ y0 :: ys
        unfold squeeze
        rw [if_neg (by simp [hy0'])]
        rw [squeeze_id p rep _ (fun c hc => hy c hc)]
        rfl
    | cons c2 rest =>
      show squeeze p rep (c1 :: c2 :: (rest ++ y)) =
        squeeze p rep (c1 :: c2 :: rest) ++ y
      unfold squeeze
      by_cases hpc : (p c1 && p c2) = true
      · rw [if_pos hpc, if_pos hpc]
        exact ih
      · rw [if_neg hpc, if_neg hpc]
        exact congrArg (List.cons (if p c1 = true then rep else c1)) ih

theorem dropWhile_append_keep (p : Char → Bool) (x y : List Char)
    (hy0 : y ≠ []) (hy : ∀ c ∈ y, p c = false) :
    (x ++ y).dropWhile p = x.dropWhile p ++ y := by
  induction x with
  | nil =>
    cases y with
    | nil => exact absurd rfl hy0
    | cons y0 ys => simp [List.dropWhile_cons, hy y0 (by simp)]
  | cons c tl ih =>
    rw [List.cons_append, List.dropWhile_cons, List.dropWhile_cons]
    by_cases hc : p c = true
    · simp [hc, ih]
    · simp [hc]

theorem stripBoth_append_keep (p : Char → Bool) (x y : List Char)
    (hy0 : y ≠ []) (hy : ∀ c ∈ y, p c = false) :
    stripBoth p (x ++ y) = x.dropWhile p ++ y := by
  unfold stripBoth
  rw [dropWhile_append_keep p x y hy0 hy]
  rcases List.eq_nil_or_concat y with rfl | ⟨L, b, rfl⟩
  · exact absurd rfl hy0
  · rw [List.concat_eq_append]
    have hb : p b = false := hy b (by simp)
    rw [show x.dropWhile p ++ (L ++ [b]) = (x.dropWhile p ++ L) ++ [b] by simp]
    rw [List.reverse_append]
    simp only [List.reverse_cons, List.reverse_nil, List.nil_append,
      List.singleton_append]
    rw [List.dropWhile_cons, hb]
    simp

theorem map_keep (f : Char → Char) (y : List Char) (hy : ∀ c ∈ y, f c = c) :
    y.map f = y := by
  induction y with
  | nil => rfl
  | cons c tl ih =>
    rw [List.map_cons, hy c (by simp), ih (fun c hc => hy c (List.mem_cons_of_mem _ hc))]

theorem sanitizeCore_append (x y : List Char) (hy0 : y ≠ [])
    (hy : ∀ c ∈ y, isForbidden c = false ∧ pyIsSpace c = false ∧
      isTrimChar c = false ∧ c ≠ '_') :
    sanitizeCore (x ++ y) =
      List.dropWhile isTrimChar
        (squeeze (fun c => c = '_') '_'
          (squeeze pyIsSpace ' '
            (x.map (fun c => if isForbidden c then '_' else c)))) ++ y := by
  unfold sanitizeCore
  rw [List.map_append]
  rw [map_keep _ y (fun c hc => by simp [(hy c hc).1])]
  rw [squeeze_append pyIsSpace ' ' _ y hy0 (fun c hc => (hy c hc).2.1)]
  rw [squeeze_append (fun c => c = '_') '_' _ y hy0
    (fun c hc => by simp [(hy c hc).2.2.2])]
  rw [stripBoth_append_keep isTrimChar _ y hy0 (fun c hc => (hy c hc).2.2.1)]

theorem joinParts_concat (ps : List (List Char)) (l : List Char) :
    joinParts (ps ++ [l]) = preJoin ps ++ l := by
  induction ps with
  | nil => rfl
  | cons p ps ih =>
    cases ps with
    | nil => simp [joinParts, preJoin]
    | cons q qs =>
      show joinParts (p :: ((q :: qs) ++ [l])) = (p ++ ' ' :: preJoin (q :: qs)) ++ l
      rw [show ((q :: qs) ++ [l] : List (List Char)) = q :: (qs ++ [l]) by simp]
      unfold joinParts
      rw [show (q :: (qs ++ [l]) : List (List Char)) = (q :: qs) ++ [l] by simp]
      rw [ih]
      simp

theorem composeName_split (mode : SortMode) (pfx emojis stem res orient : List Char)
    (fps : Nat) (ext : List Char) (c : Nat) :
    composeName mode pfx emojis stem res orient fps ext c =
      composeHead mode pfx emojis stem res orient fps ++ (counter_str c ++ '.' :: ext) := by
  unfold composeName composeHead
  by_cases h1 : mode = SortMode.KeepName
  · rw [if_pos h1, if_pos h1]
    simp
  · rw [if_neg h1, if_neg h1]
    by_cases h2 : mode = SortMode.EmojiVid
    · rw [if_pos h2, if_pos h2]
      exact joinParts_concat _ _
    · rw [if_neg h2, if_neg h2]
      exact joinParts_concat _ _

theorem extOf_alnum (sfx : List Char) : ∀ ch ∈ extOf sfx, isAsciiAlnum ch = true := by
  intro ch hch
  simp only [extOf] at hch
  split at hch
  · have : ch ∈ ['m', 'o', 'v'] := hch
    fin_cases this <;> decide
  · exact (List.mem_filter.1 hch).2

theorem tail_safe (ext : List Char) (c : Nat)
    (hext : ∀ ch ∈ ext, isAsciiAlnum ch = true) :
    (counter_str c ++ '.' :: ext ≠ []) ∧
    (∀ ch ∈ counter_str c ++ '.' :: ext,
      isForbidden ch = false ∧ pyIsSpace ch = false ∧ isTrimChar ch = false ∧ ch ≠ '_') := by
  refine ⟨by simp [counter_str_ne_nil c], fun ch hch => ?_⟩
  rcases List.mem_append.1 hch with h | h
  · exact digitList_safe ch (counter_str_digitList c ch h)
  · rcases List.mem_cons.1 h with rfl | h'
    · exact ⟨by decide, by decide, by decide, by decide⟩
    · exact alnum_safe ch (hext ch h')

/-! ### Helper lemmas: the destination allocator -/

theorem sanitized_name_inj (mode : SortMode) (pfx emojis stem res orient : List Char)
    (fps : Nat) (ext : List Char) (hext : ∀ ch ∈ ext, isAsciiAlnum ch = true)
    (c1 c2 : Nat)
    (h1 : (sanitizeCore (composeName mode pfx emojis stem res orient fps ext c1)).length ≤ 200)
    (h2 : (sanitizeCore (composeName mode pfx emojis stem res orient fps ext c2)).length ≤ 200)
    (heq : _sanitize_filename (composeName mode pfx emojis stem res orient fps ext c1) 200 =
      _sanitize_filename (composeName mode pfx emojis stem res orient fps ext c2) 200) :
    c1 = c2 := by
  rw [sanitize_eq_core _ _ h1, sanitize_eq_core _ _ h2] at heq
  rw [composeName_split, composeName_split] at heq
  obtain ⟨hne1, hsafe1⟩ := tail_safe ext c1 hext
  obtain ⟨hne2, hsafe2⟩ := tail_safe ext c2 hext
  rw [sanitizeCore_append _ _ hne1 hsafe1, sanitizeCore_append _ _ hne2 hsafe2] at heq
  have heq2 := List.append_cancel_left heq
  have heq3 := List.append_cancel_right heq2
  exact counter_str_inj _ _ heq3

theorem findDest_some (dk : List (List Char) → Bool) (dirSegs : List (List Char))
    (mkName : Nat → List Char) :
    ∀ fuel start p c, findDest dk dirSegs mkName fuel start = some (p, c) →
      start ≤ c ∧ p = dirSegs ++ [mkName c] ∧ dk p = false := by
  intro fuel
  induction fuel with
  | zero => intro start p c h; simp [findDest] at h
  | succ fuel ih =>
    intro start p c h
    simp only [findDest] at h
    split at h
    · have h' := ih (start + 1) p c h
      exact ⟨by omega, h'.2⟩
    · rename_i hdk
      simp only [Option.some.injEq, Prod.mk.injEq] at h
      obtain ⟨hp, hc⟩ := h
      subst hc
      subst hp
      exact ⟨Nat.le_refl _, rfl, by simpa using hdk⟩

theorem alookup_aupdate_self {β : Type} (k : List Char) (v : β)
    (m : List (List Char × β)) : alookup k (aupdate k v m) = some v := by
  induction m with
  | nil => simp [aupdate, alookup]
  | cons kv rest ih =>
    unfold aupdate
    by_cases h : k = kv.1
    · rw [if_pos h]
      simp [alookup]
    · rw [if_neg h]
      unfold alookup
      rw [if_neg h]
      exact ih

theorem alookup_aupdate_ne {β : Type} (k k' : List Char) (v : β)
    (m : List (List Char × β)) (h : k' ≠ k) :
    alookup k' (aupdate k v m) = alookup k' m := by
  induction m with
  | nil => simp [aupdate, alookup, h]
  | cons kv rest ih =>
    unfold aupdate
    by_cases hk : k = kv.1
    · rw [if_pos hk]
      subst hk
      unfold alookup
      rw [if_neg h, if_neg h]
    · rw [if_neg hk]
      unfold alookup
      by_cases hk' : k' = kv.1
      · rw [if_pos hk', if_pos hk']
      · rw [if_neg hk', if_neg hk']
        exact ih

theorem classify_parts (m : VideoMetadata) :
    (VideoClassifier.classify m).1 ∈
      ["4K".data, "1080p".data, "720p".data, "HD".data, "SD".data] ∧
    (VideoClassifier.classify m).2.1 ∈ ["V".data, "W".data] ∧
    (VideoClassifier.classify m).2.2 ∈ [60, 30] := by
  refine ⟨?_, ?_, ?_⟩ <;>
  · simp only [VideoClassifier.classify]
    split_ifs <;> simp

theorem formatKey_sep :
    ∀ r1 ∈ ["4K".data, "1080p".data, "720p".data, "HD".data, "SD".data],
    ∀ o1 ∈ ["V".data, "W".data], ∀ f1 ∈ [60, 30],
    ∀ r2 ∈ ["4K".data, "1080p".data, "720p".data, "HD".data, "SD".data],
    ∀ o2 ∈ ["V".data, "W".data], ∀ f2 ∈ [60, 30],
      o1 ≠ o2 ∨ f1 ≠ f2 → formatKey r1 o1 f1 ≠ formatKey r2 o2 f2 := by decide

/-! ### Claim C7 — counters keyed on the full 3-part category key -/

/-- C7: a successful `get_destination` updates the counters dict only at
the full 3-part key `tier|orientation|frameRateBucket` of the input's
classification, whatever the mode (every other key keeps its value), and
two classifications that differ in orientation or frame-rate bucket always
have different keys — so they never draw from the same counter. -/
theorem C7_counter_key (dk : List (List Char) → Bool) (org : Organizer)
    (stem sfx : List Char) (md : VideoMetadata) (fuel : Nat)
    (p : List (List Char)) (org' : Organizer)
    (h : get_destination dk org stem sfx md fuel = some (p, org')) :
    (∃ c, org'.counters =
      aupdate (formatKey (VideoClassifier.classify md).1
        (VideoClassifier.classify md).2.1 (VideoClassifier.classify md).2.2) c
        org.counters) ∧
    (∀ k, k ≠ formatKey (VideoClassifier.classify md).1
        (VideoClassifier.classify md).2.1 (VideoClassifier.classify md).2.2 →
      alookup k org'.counters = alookup k org.counters) ∧
    (∀ md' : VideoMetadata,
      (VideoClassifier.classify md').2.1 ≠ (VideoClassifier.classify md).2.1 ∨
        (VideoClassifier.classify md').2.2 ≠ (VideoClassifier.classify md).2.2 →
      formatKey (VideoClassifier.classify md').1 (VideoClassifier.classify md').2.1
          (VideoClassifier.classify md').2.2 ≠
        formatKey (VideoClassifier.classify md).1 (VideoClassifier.classify md).2.1
          (VideoClassifier.classify md).2.2) := by
  simp only [get_destination] at h
  split at h
  · exact absurd h (by simp)
  · rename_i pc heq
    simp only [Option.some.injEq, Prod.mk.injEq] at h
    obtain ⟨hp, horg⟩ := h
    refine ⟨⟨pc.2, by rw [← horg]⟩, fun k hk => ?_, fun md' hd => ?_⟩
    · rw [← horg]
      exact alookup_aupdate_ne _ _ _ _ hk
    · have hm := classify_parts md
      have hm' := classify_parts md'
      exact formatKey_sep _ hm'.1 _ hm'.2.1 _ hm'.2.2 _ hm.1 _ hm.2.1 _ hm.2.2 hd

/-- Witness for `C7_counter_key`: a concrete allocation in ProVid mode
leaves the counter of an unrelated key untouched. -/
theorem C7_counter_key_witness :
    alookup ['x']
        (Organizer.mk SortMode.ProVid [] [] [(formatKey "4K".data "W".data 30, 1)]).counters =
      alookup ['x'] (Organizer.mk SortMode.ProVid [] [] []).counters :=
  (C7_counter_key (fun _ => false) ⟨SortMode.ProVid, [], [], []⟩
      "clip".data ".mov".data ⟨3840, 2160, 0, 30, none, false, false, false⟩ 1
      ["4K W30 001.mov".data]
      ⟨SortMode.ProVid, [], [], [(formatKey "4K".data "W".data 30, 1)]⟩
      (by decide)).2.1 ['x'] (by decide)

/-! ### Claim C3 — counter persistence and collision avoidance -/

set_option maxRecDepth 10000 in
/-- C3 counterexample: with a 196-character prefix the 200-character
truncation cuts the counter off the sanitized name, and two consecutive
`get_destination` calls for the same category (nothing on disk, nothing
written between the calls) return the *same* destination path — the
session records counters 1 and then 2, but both compose to the same
truncated filename. -/
theorem C3_truncation_counterexample :
    get_destination (fun _ => false)
        ⟨SortMode.ProVid, List.replicate 196 'a', [], []⟩
        "clip".data ".mov".data ⟨3840, 2160, 0, 30, none, false, false, false⟩ 5 =
      some ([List.replicate 196 'a' ++ '.' :: "mov".data],
        ⟨SortMode.ProVid, List.replicate 196 'a', [],
          [(formatKey "4K".data "W".data 30, 1)]⟩) ∧
    get_destination (fun _ => false)
        ⟨SortMode.ProVid, List.replicate 196 'a', [],
          [(formatKey "4K".data "W".data 30, 1)]⟩
        "clip".data ".mov".data ⟨3840, 2160, 0, 30, none, false, false, false⟩ 5 =
      some ([List.replicate 196 'a' ++ '.' :: "mov".data],
        ⟨SortMode.ProVid, List.replicate 196 'a', [],
          [(formatKey "4K".data "W".data 30, 2)]⟩) :=
  ⟨by decide, by decide⟩

/-- C3 amended: provided the composed names stay within the 200-character
sanitization cap (no truncation), two consecutive `get_destination` calls
for the same request — with the same on-disk state, nothing written in
between — return different paths, because the per-key counter persists
within the session and strictly grows; and a returned destination never
exists on disk (`dk` answers false on it), the loop having skipped every
occupied candidate. -/
theorem C3_counter_collision_avoidance
    (dk : List (List Char) → Bool) (org : Organizer) (stem sfx : List Char)
    (md : VideoMetadata) (fuel1 fuel2 : Nat) (p1 p2 : List (List Char))
    (org1 org2 : Organizer)
    (h1 : get_destination dk org stem sfx md fuel1 = some (p1, org1))
    (h2 : get_destination dk org1 stem sfx md fuel2 = some (p2, org2))
    (hl1 : (sanitizeCore (classifiedName org stem sfx md (usedCounter org1 md))).length ≤ 200)
    (hl2 : (sanitizeCore (classifiedName org stem sfx md (usedCounter org2 md))).length ≤ 200) :
    p1 ≠ p2 ∧ dk p1 = false ∧ dk p2 = false := by
  simp only [get_destination] at h1
  split at h1
  · exact absurd h1 (by simp)
  rename_i pc1 heq1
  simp only [Option.some.injEq, Prod.mk.injEq] at h1
  obtain ⟨hp1, horg1⟩ := h1
  subst horg1
  simp only [get_destination] at h2
  split at h2
  · exact absurd h2 (by simp)
  rename_i pc2 heq2
  simp only [Option.some.injEq, Prod.mk.injEq] at h2
  obtain ⟨hp2, horg2⟩ := h2
  rw [alookup_aupdate_self] at heq2
  simp only [Option.getD_some] at heq2
  obtain ⟨hge1, hp1eq, hdk1⟩ := findDest_some _ _ _ fuel1 _ pc1.1 pc1.2 heq1
  obtain ⟨hge2, hp2eq, hdk2⟩ := findDest_some _ _ _ fuel2 _ pc2.1 pc2.2 heq2
  have huc1 : usedCounter
      { org with counters :=
        (aupdate (formatKey (VideoClassifier.classify md).1
          (VideoClassifier.classify md).2.1 (VideoClassifier.classify md).2.2)
          pc1.2 org.counters) } md = pc1.2 := by
    unfold usedCounter
    rw [alookup_aupdate_self]
    rfl
  have huc2 : usedCounter org2 md = pc2.2 := by
    unfold usedCounter
    rw [← horg2]
    rw [alookup_aupdate_self]
    rfl
  rw [huc1] at hl1
  rw [huc2] at hl2
  refine ⟨?_, ?_, ?_⟩
  · intro hpp
    rw [← hp1, ← hp2] at hpp
    rw [hp1eq, hp2eq] at hpp
    have h3 := List.append_cancel_left hpp
    simp only [List.cons.injEq, and_true] at h3
    have hc12 : pc1.2 = pc2.2 :=
      sanitized_name_inj org.mode org.pfx (emojisOf md) stem
        (VideoClassifier.classify md).1 (VideoClassifier.classify md).2.1
        (VideoClassifier.classify md).2.2 (extOf sfx) (extOf_alnum sfx)
        pc1.2 pc2.2 hl1 hl2 h3
    omega
  · rw [← hp1]
    exact hdk1
  · rw [← hp2]
    exact hdk2

/-- Witness for `C3_counter_collision_avoidance`: a concrete two-call
session in ProVid mode with prefix "P" yields 001 then 002. -/
theorem C3_counter_collision_avoidance_witness :
    (["P 4K W30 001.mov".data] : List (List Char)) ≠ ["P 4K W30 002.mov".data] ∧
    (fun _ => false : List (List Char) → Bool) ["P 4K W30 001.mov".data] = false ∧
    (fun _ => false : List (List Char) → Bool) ["P 4K W30 002.mov".data] = false :=
  C3_counter_collision_avoidance (fun _ => false)
    ⟨SortMode.ProVid, "P".data, [], []⟩ "clip".data ".mov".data
    ⟨3840, 2160, 0, 30, none, false, false, false⟩ 1 1
    ["P 4K W30 001.mov".data] ["P 4K W30 002.mov".data]
    ⟨SortMode.ProVid, "P".data, [], [(formatKey "4K".data "W".data 30, 1)]⟩
    ⟨SortMode.ProVid, "P".data, [], [(formatKey "4K".data "W".data 30, 2)]⟩
    (by decide) (by decide) (by decide) (by decide)

/-! ### Helper lemmas: the input-root normalizer -/

theorem addRoots_shape : ∀ (l roots : List FsPath),
    ∃ t, addRoots roots l = roots ++ t ∧ t.Sublist l := by
  intro l
  induction l with
  | nil => intro roots; exact ⟨[], by simp [addRoots], List.nil_sublist _⟩
  | cons p rest ih =>
    intro roots
    unfold addRoots
    by_cases hc : (roots.any (fun root => p == root || isRelativeTo p root)) = true
    · rw [if_pos hc]
      obtain ⟨t, ht, hs⟩ := ih roots
      exact ⟨t, ht, hs.cons p⟩
    · rw [if_neg hc]
      obtain ⟨t, ht, hs⟩ := ih (roots ++ [p])
      exact ⟨p :: t, by rw [ht]; simp, hs.cons₂ p⟩

theorem addRoots_covered : ∀ (l roots : List FsPath) (p : FsPath), p ∈ l →
    p ∉ addRoots roots l →
    ∃ r ∈ addRoots roots l, (p == r || isRelativeTo p r) = true := by
  intro l
  induction l with
  | nil => intro roots p hp; simp at hp
  | cons q rest ih =>
    intro roots p hp hnot
    unfold addRoots at hnot ⊢
    by_cases hc : (roots.any (fun root => q == root || isRelativeTo q root)) = true
    · rw [if_pos hc] at hnot ⊢
      rcases List.mem_cons.1 hp with rfl | hp'
      · obtain ⟨r, hr, hpr⟩ := List.any_eq_true.1 hc
        obtain ⟨t, ht, _⟩ := addRoots_shape rest roots
        exact ⟨r, by rw [ht]; exact List.mem_append_left _ hr, hpr⟩
      · exact ih roots p hp' hnot
    · rw [if_neg hc] at hnot ⊢
      rcases List.mem_cons.1 hp with rfl | hp'
      · obtain ⟨t, ht, _⟩ := addRoots_shape rest (roots ++ [p])
        exact absurd (by rw [ht]; exact List.mem_append_left _ (by simp)) hnot
      · exact ih (roots ++ [q]) p hp' hnot

theorem addRoots_nonest : ∀ (l roots : List FsPath),
    List.Pairwise (fun a b => a.length ≤ b.length) l →
    (∀ r ∈ roots, ∀ q ∈ l, r.length ≤ q.length) →
    (∀ a ∈ roots, ∀ b ∈ roots, a ≠ b → isRelativeTo a b = false) →
    ∀ a ∈ addRoots roots l, ∀ b ∈ addRoots roots l, a ≠ b →
      isRelativeTo a b = false := by
  intro l
  induction l with
  | nil => intro roots _ _ hno; simpa [addRoots] using hno
  | cons q rest ih =>
    intro roots hpw hlen hno
    unfold addRoots
    by_cases hc : (roots.any (fun root => q == root || isRelativeTo q root)) = true
    · rw [if_pos hc]
      exact ih roots hpw.of_cons
        (fun r hr q' hq' => hlen r hr q' (List.mem_cons_of_mem _ hq')) hno
    · rw [if_neg hc]
      apply ih (roots ++ [q]) hpw.of_cons
      · intro r hr q' hq'
        rcases List.mem_append.1 hr with hr' | hr'
        · exact hlen r hr' q' (List.mem_cons_of_mem _ hq')
        · simp only [List.mem_singleton] at hr'
          subst hr'
          exact (List.pairwise_cons.1 hpw).1 q' hq'
      · intro a ha b hb hab
        rcases List.mem_append.1 ha with ha' | ha' <;>
          rcases List.mem_append.1 hb with hb' | hb'
        · exact hno a ha' b hb' hab
        · simp only [List.mem_singleton] at hb'
          subst hb'
          by_contra hrel
          rw [Bool.not_eq_false] at hrel
          have hpre : b <+: a := by
            rw [isRelativeTo] at hrel
            exact List.isPrefixOf_iff_prefix.1 hrel
          have hlq : b.length ≤ a.length := hpre.length_le
          have hla : a.length ≤ b.length := hlen a ha' b (by simp)
          have heq : b = a := hpre.eq_of_length (by omega)
          exact hab heq.symm
        · simp only [List.mem_singleton] at ha'
          subst ha'
          by_contra hrel
          rw [Bool.not_eq_false] at hrel
          exact hc (List.any_eq_true.2 ⟨b, hb', by rw [hrel]; simp⟩)
        · simp only [List.mem_singleton] at ha' hb'
          subst ha'
          subst hb'
          exact absurd rfl hab

/-! ### Claim C4 — input-root normalization -/

/-- C4 counterexample: Python sorts the deduplicated set by part-count
only; ties keep the set's (unspecified) iteration order.  With the inputs
/c and /a, the iteration order [/c, /a] is a legal `sorted(set(...),
key=len(parts))` value, passes through the root loop unchanged, and is
not depth-then-lexicographically ordered — so the claimed "then
lexicographic" tie-break does not hold of the code. -/
theorem C4_order_counterexample :
    ValidSetSort (normalizedOf (fun p => some p) (fun _ => true)
      [["c".data], ["a".data]]) [["c".data], ["a".data]] ∧
    _dedupe_input_roots [["c".data], ["a".data]] = [["c".data], ["a".data]] ∧
    ¬ List.Pairwise depthThenLex [["c".data], ["a".data]] := by
  refine ⟨⟨by decide, by decide, by decide, by decide⟩, by decide, ?_⟩
  intro hpw
  have h := (List.pairwise_cons.1 hpw).1 ["a".data] (by simp)
  exact absurd h (by decide)

/-- C4 amended: for every legal value `ys` of `sorted(set(normalized),
key=len(parts))` — the normalized list being the resolved, existing
inputs — the root loop returns a subsequence of `ys` (hence duplicate-free
and in nondecreasing depth order; the depth order is all the code
guarantees, equal-depth ties keep the unspecified set-iteration order),
containing only normalized paths, with no surviving path nested under
another surviving path, every dropped path nested under (or equal to) a
surviving one, and `["/a", "/a/b", "/c"]` normalizes to `["/a", "/c"]`. -/
theorem C4_normalize_roots (resolveF : FsPath → Option FsPath)
    (existsF : FsPath → Bool) (paths ys : List FsPath)
    (hv : ValidSetSort (normalizedOf resolveF existsF paths) ys) :
    (_dedupe_input_roots ys).Sublist ys ∧
    (_dedupe_input_roots ys).Nodup ∧
    (_dedupe_input_roots ys).Pairwise (fun a b => a.length ≤ b.length) ∧
    (∀ r ∈ _dedupe_input_roots ys, r ∈ normalizedOf resolveF existsF paths) ∧
    (∀ a ∈ _dedupe_input_roots ys, ∀ b ∈ _dedupe_input_roots ys, a ≠ b →
      isRelativeTo a b = false) ∧
    (∀ p ∈ ys, p ∉ _dedupe_input_roots ys →
      ∃ r ∈ _dedupe_input_roots ys, isRelativeTo p r = true) ∧
    _dedupe_input_roots [["a".data], ["c".data], ["a".data, "b".data]] =
      [["a".data], ["c".data]] := by
  obtain ⟨hnd, hsub, hsup, hpw⟩ := hv
  obtain ⟨t, ht, hs⟩ := addRoots_shape ys []
  have hsl : (_dedupe_input_roots ys).Sublist ys := by
    unfold _dedupe_input_roots
    rw [ht]
    simpa using hs
  refine ⟨hsl, hnd.sublist hsl, hpw.sublist hsl, ?_, ?_, ?_, by decide⟩
  · intro r hr
    exact hsub r (hsl.subset hr)
  · exact addRoots_nonest ys [] hpw (by simp) (by simp)
  · intro p hp hnot
    obtain ⟨r, hr, hpr⟩ := addRoots_covered ys [] p hp hnot
    refine ⟨r, hr, ?_⟩
    rw [Bool.or_eq_true] at hpr
    rcases hpr with hb | hb
    · have hpeq : p = r := beq_iff_eq.1 hb
      exact absurd (hpeq ▸ hr) hnot
    · exact hb

/-- Witness for `C4_normalize_roots`: the spec's own example instantiated
with identity resolution and everything existing. -/
theorem C4_normalize_roots_witness :
    (_dedupe_input_roots [["a".data], ["c".data], ["a".data, "b".data]]).Sublist
      [["a".data], ["c".data], ["a".data, "b".data]] :=
  (C4_normalize_roots (fun p => some p) (fun _ => true)
    [["a".data], ["c".data], ["a".data, "b".data]]
    [["a".data], ["c".data], ["a".data, "b".data]]
    ⟨by decide, by decide, by decide, by decide⟩).1
